import Mathlib

/-!
Verification development for the `pcap-broker` PCAP-over-IP broker
(`cmd/pcap-broker/main.go`).  The definitions below are a shallow
embedding of the Go sources: the distributor loop `processPackets`,
the accept loop of `main`, the startup sequence, and the reaction of
the broker to top-level events.  Go machine integers (`uint64`
counters) are modelled as `Nat` reduced modulo `2 ^ 64` at each
update.  The Go map `map[net.Conn]PcapClient` is modelled as an
association list; the list order stands for the (unspecified) map
iteration order, and theorems quantify over the whole list, hence
over every possible order.  Network effects are modelled by an
oracle `ok : Conn → PacketRecord → Bool` giving the success or
failure of each `WritePacket` call on each connection.
-/

set_option autoImplicit false

namespace PcapBroker

/-- Identity of one client TCP connection (a `net.Conn` value). -/
abbrev Conn := Nat

/-- Modulus of Go `uint64` arithmetic. -/
def U64 : Nat := 2 ^ 64

/-- Embedding of `gopacket.CaptureInfo`: the per-record pcap header data
(timestamp, captured length, original length) attached to each decoded
packet. -/
structure CaptureInfo where
  tsSec : Nat
  tsUsec : Nat
  captureLength : Nat
  origLength : Nat
deriving DecidableEq, Repr

/-- One decoded packet record: its `CaptureInfo` metadata plus the raw
payload bytes (`packet.Data()`). -/
structure PacketRecord where
  ci : CaptureInfo
  data : List Nat
deriving DecidableEq, Repr

/-- Embedding of the Go struct `PcapClient` from `main.go`:

```go
type PcapClient struct {
    writer       *pcapgo.Writer
    totalPackets uint64
    totalBytes   uint64
}
```

The `writer` field is a pointer to a `pcapgo.Writer` wrapping the
connection; its write calls are modelled by the success oracle passed to
the functions below, so only the two counters are state here.  Both are
`uint64`, modelled as `Nat` with updates reduced modulo `U64`. -/
structure PcapClient where
  totalPackets : Nat
  totalBytes : Nat
deriving DecidableEq, Repr

/-- The zero-valued `PcapClient{writer: writer}` stored at registration
(Go zero values for the two counter fields). -/
def PcapClient.zero : PcapClient :=
  ⟨0, 0⟩

/-- The connection registry: embedding of `connMap map[net.Conn]PcapClient`.
The association list order stands for the iteration order of the Go map. -/
abbrev Registry := List (Conn × PcapClient)

/-- Keys of the registry: the set of currently registered connections. -/
def keys (m : Registry) : List Conn :=
  m.map Prod.fst

@[simp]
theorem keys_nil : keys [] = [] := rfl

@[simp]
theorem keys_cons (e : Conn × PcapClient) (m : Registry) :
    keys (e :: m) = e.1 :: keys m := rfl

/-- Result of fanning one packet record out over the registry
(one execution of the inner `for conn, stats := range connMap` loop of
`processPackets`). -/
structure FanOut where
  registry : Registry
  closed : List Conn
  attempts : List (Conn × PacketRecord)
  delivered : List (Conn × PacketRecord)
deriving DecidableEq, Repr

/-- Embedding of the inner loop of `processPackets` (`main.go` lines
222-236):

```go
for conn, stats := range connMap {
    ci := packet.Metadata().CaptureInfo
    err := stats.writer.WritePacket(ci, packet.Data())
    if err != nil {
        log.Err(err).Msg("failed to write packet to connection")
        delete(connMap, conn)
        err := conn.Close()
        ...
        continue
    }
    stats.totalPackets += 1
    stats.totalBytes += uint64(ci.CaptureLength)
}
```

`ok c r` is the outcome of `stats.writer.WritePacket` for connection `c`
and record `r`.  On failure the entry is deleted from the map and the
connection closed.  On success, note that `stats` is a COPY of the map
value (`connMap` has value type `PcapClient`, and `range` yields copies),
so the two counter increments update the local copy `_stats` only and
are never stored back into the map: the registry entry keeps its old
counters.  The local copy is kept below, unused, to mirror the source. -/
def fanOutRecord (ok : Conn → PacketRecord → Bool) (r : PacketRecord) :
    Registry → FanOut
  | [] => ⟨[], [], [], []⟩
  | (c, st) :: rest =>
    let res := fanOutRecord ok r rest
    if ok c r then
      let _stats : PcapClient :=
        ⟨(st.totalPackets + 1) % U64,
         (st.totalBytes + r.ci.captureLength) % U64⟩
      ⟨(c, st) :: res.registry, res.closed,
       (c, r) :: res.attempts, (c, r) :: res.delivered⟩
    else
      ⟨res.registry, c :: res.closed,
       (c, r) :: res.attempts, res.delivered⟩

@[simp]
theorem fanOutRecord_nil (ok : Conn → PacketRecord → Bool) (r : PacketRecord) :
    fanOutRecord ok r [] = ⟨[], [], [], []⟩ := rfl

theorem fanOutRecord_cons (ok : Conn → PacketRecord → Bool) (r : PacketRecord)
    (c : Conn) (st : PcapClient) (m : Registry) :
    fanOutRecord ok r ((c, st) :: m) =
      if ok c r then
        ⟨(c, st) :: (fanOutRecord ok r m).registry, (fanOutRecord ok r m).closed,
         (c, r) :: (fanOutRecord ok r m).attempts,
         (c, r) :: (fanOutRecord ok r m).delivered⟩
      else
        ⟨(fanOutRecord ok r m).registry, c :: (fanOutRecord ok r m).closed,
         (c, r) :: (fanOutRecord ok r m).attempts,
         (fanOutRecord ok r m).delivered⟩ := by
  simp [fanOutRecord]

/-- The registry after one fan-out pass keeps exactly the entries whose
write succeeded, with their stored counters UNCHANGED (the increments in
the Go source act on a copy of the map value). -/
theorem fanOutRecord_registry (ok : Conn → PacketRecord → Bool)
    (r : PacketRecord) (m : Registry) :
    (fanOutRecord ok r m).registry = m.filter (fun e => ok e.1 r) := by
  induction m with
  | nil => rfl
  | cons e rest ih =>
    obtain ⟨c, st⟩ := e
    rw [fanOutRecord_cons]
    by_cases h : ok c r <;> simp [h, List.filter_cons, ih]

/-- Every connection in the registry gets exactly one write attempt per
record, carrying the record unchanged. -/
theorem fanOutRecord_attempts (ok : Conn → PacketRecord → Bool)
    (r : PacketRecord) (m : Registry) :
    (fanOutRecord ok r m).attempts = (keys m).map (fun c => (c, r)) := by
  induction m with
  | nil => rfl
  | cons e rest ih =>
    obtain ⟨c, st⟩ := e
    rw [fanOutRecord_cons]
    by_cases h : ok c r <;> simp [h, keys, ih]

/-- The record is delivered to exactly the connections whose write
succeeded. -/
theorem fanOutRecord_delivered (ok : Conn → PacketRecord → Bool)
    (r : PacketRecord) (m : Registry) :
    (fanOutRecord ok r m).delivered =
      ((keys (m.filter (fun e => ok e.1 r))).map (fun c => (c, r))) := by
  induction m with
  | nil => rfl
  | cons e rest ih =>
    obtain ⟨c, st⟩ := e
    rw [fanOutRecord_cons]
    by_cases h : ok c r <;> simp [h, keys, List.filter_cons, ih]

/-- Exactly the connections whose write failed are closed during the
pass. -/
theorem fanOutRecord_closed (ok : Conn → PacketRecord → Bool)
    (r : PacketRecord) (m : Registry) :
    (fanOutRecord ok r m).closed = keys (m.filter (fun e => !ok e.1 r)) := by
  induction m with
  | nil => rfl
  | cons e rest ih =>
    obtain ⟨c, st⟩ := e
    rw [fanOutRecord_cons]
    by_cases h : ok c r <;> simp [h, keys, List.filter_cons, ih]

/-- Result of running the distributor loop: final registry, the trace of
write attempts `(record index, connection, record)` in the order they
were issued, the closed connections, and the indices at which the
shutdown signal was inspected. -/
structure ProcessOut where
  registry : Registry
  writes : List (Nat × Conn × PacketRecord)
  closed : List Conn
  checks : List Nat
deriving DecidableEq, Repr

/-- Embedding of the outer loop of `processPackets` (`main.go` lines
210-238), from record index `i` on:

```go
for packet := range packetSource.Packets() {
    select {
    case <-ctx.Done():
        return
    default:
    }
    for conn, stats := range connMap { ... }
}
```

`cancelled j` is whether `ctx.Done()` has fired by the time the `select`
for the `j`-th record runs.  Each consumed record is first checked
against the context (the index is recorded in `checks`); if the context
is cancelled the function returns at once, issuing no write for that or
any later record; otherwise the record is fanned out over the current
registry. -/
def processPacketsFrom (ok : Conn → PacketRecord → Bool)
    (cancelled : Nat → Bool) :
    Nat → List PacketRecord → Registry → ProcessOut
  | _, [], m => ⟨m, [], [], []⟩
  | i, r :: rest, m =>
    if cancelled i then
      ⟨m, [], [], [i]⟩
    else
      let f := fanOutRecord ok r m
      let p := processPacketsFrom ok cancelled (i + 1) rest f.registry
      ⟨p.registry, f.attempts.map (fun a => (i, a.1, a.2)) ++ p.writes,
       f.closed ++ p.closed, i :: p.checks⟩

/-- The distributor run started at record index 0 (entry point of the
`processPackets` goroutine). -/
def processPackets (ok : Conn → PacketRecord → Bool)
    (cancelled : Nat → Bool) (packets : List PacketRecord) (m : Registry) :
    ProcessOut :=
  processPacketsFrom ok cancelled 0 packets m

/-- Unfolding lemma: a record received while the context is already
cancelled makes the distributor return at once. -/
theorem processPacketsFrom_cons_cancelled (ok : Conn → PacketRecord → Bool)
    (cancelled : Nat → Bool) (i : Nat) (r : PacketRecord)
    (rest : List PacketRecord) (m : Registry) (h : cancelled i = true) :
    processPacketsFrom ok cancelled i (r :: rest) m = ⟨m, [], [], [i]⟩ := by
  simp [processPacketsFrom, h]

/-- Unfolding lemma: a record received while the context is live is
fanned out and the loop continues. -/
theorem processPacketsFrom_cons_active (ok : Conn → PacketRecord → Bool)
    (cancelled : Nat → Bool) (i : Nat) (r : PacketRecord)
    (rest : List PacketRecord) (m : Registry) (h : cancelled i = false) :
    processPacketsFrom ok cancelled i (r :: rest) m =
      ⟨(processPacketsFrom ok cancelled (i + 1) rest
          (fanOutRecord ok r m).registry).registry,
       (fanOutRecord ok r m).attempts.map (fun a => (i, a.1, a.2)) ++
         (processPacketsFrom ok cancelled (i + 1) rest
           (fanOutRecord ok r m).registry).writes,
       (fanOutRecord ok r m).closed ++
         (processPacketsFrom ok cancelled (i + 1) rest
           (fanOutRecord ok r m).registry).closed,
       i :: (processPacketsFrom ok cancelled (i + 1) rest
         (fanOutRecord ok r m).registry).checks⟩ := by
  simp [processPacketsFrom, h]

/-- A registry key survives a fan-out pass only if it was present before. -/
theorem keys_fanOutRecord_subset (ok : Conn → PacketRecord → Bool)
    (r : PacketRecord) (m : Registry) :
    keys (fanOutRecord ok r m).registry ⊆ keys m := by
  rw [fanOutRecord_registry]
  exact ((List.filter_sublist m).map Prod.fst).subset

/-- Fan-out preserves distinctness of the registered connections. -/
theorem keys_fanOutRecord_nodup (ok : Conn → PacketRecord → Bool)
    (r : PacketRecord) (m : Registry) (h : (keys m).Nodup) :
    (keys (fanOutRecord ok r m).registry).Nodup := by
  rw [fanOutRecord_registry]
  exact h.sublist ((List.filter_sublist m).map Prod.fst)

/-- A registry key present at the end of a distributor run was present at
the start. -/
theorem keys_processPacketsFrom_subset (ok : Conn → PacketRecord → Bool)
    (cancelled : Nat → Bool) (ps : List PacketRecord) :
    ∀ (i : Nat) (m : Registry),
      keys (processPacketsFrom ok cancelled i ps m).registry ⊆ keys m := by
  induction ps with
  | nil => intro i m; simp [processPacketsFrom]
  | cons r rest ih =>
    intro i m
    cases h : cancelled i
    · rw [processPacketsFrom_cons_active ok cancelled i r rest m h]
      exact (ih (i + 1) _).trans (keys_fanOutRecord_subset ok r m)
    · rw [processPacketsFrom_cons_cancelled ok cancelled i r rest m h]
      exact List.Subset.refl _

/-- Every write attempt issued by the distributor happened at a record
index where the context check saw no cancellation. -/
theorem processPacketsFrom_writes_not_cancelled
    (ok : Conn → PacketRecord → Bool) (cancelled : Nat → Bool)
    (ps : List PacketRecord) :
    ∀ (i : Nat) (m : Registry) (w : Nat × Conn × PacketRecord),
      w ∈ (processPacketsFrom ok cancelled i ps m).writes →
      cancelled w.1 = false := by
  induction ps with
  | nil => intro i m w hw; simp [processPacketsFrom] at hw
  | cons r rest ih =>
    intro i m w hw
    cases h : cancelled i
    · rw [processPacketsFrom_cons_active ok cancelled i r rest m h] at hw
      simp only [List.mem_append, List.mem_map] at hw
      rcases hw with ⟨a, _, heq⟩ | hw
      · rw [← heq]; exact h
      · exact ih (i + 1) _ w hw
    · rw [processPacketsFrom_cons_cancelled ok cancelled i r rest m h] at hw
      simp at hw

/-- Every write attempt was preceded by a context check at its record
index (the `select` runs before the fan-out of each record). -/
theorem processPacketsFrom_writes_checked
    (ok : Conn → PacketRecord → Bool) (cancelled : Nat → Bool)
    (ps : List PacketRecord) :
    ∀ (i : Nat) (m : Registry) (w : Nat × Conn × PacketRecord),
      w ∈ (processPacketsFrom ok cancelled i ps m).writes →
      w.1 ∈ (processPacketsFrom ok cancelled i ps m).checks := by
  induction ps with
  | nil => intro i m w hw; simp [processPacketsFrom] at hw
  | cons r rest ih =>
    intro i m w hw
    cases h : cancelled i
    · rw [processPacketsFrom_cons_active ok cancelled i r rest m h] at hw ⊢
      simp only [List.mem_append, List.mem_map] at hw
      simp only [List.mem_cons]
      rcases hw with ⟨a, _, heq⟩ | hw
      · exact Or.inl (by rw [← heq])
      · exact Or.inr (ih (i + 1) _ w hw)
    · rw [processPacketsFrom_cons_cancelled ok cancelled i r rest m h] at hw
      simp at hw

/-- The sub-trace of write attempts addressed to connection `c`, in
issue order. -/
def writesTo (c : Conn) (ws : List (Nat × Conn × PacketRecord)) :
    List (Nat × Conn × PacketRecord) :=
  ws.filter (fun w => w.2.1 == c)

@[simp]
theorem writesTo_nil (c : Conn) : writesTo c [] = [] := rfl

theorem writesTo_append (c : Conn) (a b : List (Nat × Conn × PacketRecord)) :
    writesTo c (a ++ b) = writesTo c a ++ writesTo c b := by
  simp [writesTo]

/-- Filtering a duplicate-free list for one element keeps exactly that
element. -/
theorem filter_beq_of_nodup (c : Conn) (l : List Conn) (hnd : l.Nodup)
    (hc : c ∈ l) :
    l.filter (fun a => a == c) = [c] := by
  induction l with
  | nil => cases hc
  | cons a l ih =>
    rcases List.nodup_cons.mp hnd with ⟨ha, hl⟩
    by_cases hac : a = c
    · subst hac
      rw [List.filter_cons_of_pos (by simp)]
      have : l.filter (fun x => x == a) = [] := by
        rw [List.filter_eq_nil_iff]
        intro x hx
        simp only [beq_iff_eq]
        intro hxa
        exact ha (hxa ▸ hx)
      rw [this]
    · have hc' : c ∈ l := by
        rcases List.mem_cons.mp hc with h | h
        · exact absurd h.symm hac
        · exact h
      rw [List.filter_cons_of_neg (by simpa using hac)]
      exact ih hl hc'

/-- One fan-out block contains exactly one attempt for each connection
that is in it. -/
theorem writesTo_block_mem (i : Nat) (r : PacketRecord) (c : Conn)
    (l : List Conn) (hnd : l.Nodup) (hc : c ∈ l) :
    writesTo c (l.map (fun a => (i, a, r))) = [(i, c, r)] := by
  rw [writesTo, List.filter_map]
  have : ((fun w : Nat × Conn × PacketRecord => w.2.1 == c) ∘
      fun a => (i, a, r)) = fun a => a == c := rfl
  rw [this, filter_beq_of_nodup c l hnd hc]
  rfl

/-- Per-connection trace of an uninterrupted distributor run: counted
from record index `i`, a connection still registered at the end was
attempted exactly once per record, in stream order. -/
theorem processPacketsFrom_writesTo_surviving
    (ok : Conn → PacketRecord → Bool) (ps : List PacketRecord) :
    ∀ (i : Nat) (m : Registry) (c : Conn), (keys m).Nodup →
      c ∈ keys (processPacketsFrom ok (fun _ => false) i ps m).registry →
      writesTo c (processPacketsFrom ok (fun _ => false) i ps m).writes =
        (List.enumFrom i ps).map (fun x => (x.1, c, x.2)) := by
  induction ps with
  | nil => intro i m c hnd hc; simp [processPacketsFrom, List.enumFrom]
  | cons r rest ih =>
    intro i m c hnd hc
    rw [processPacketsFrom_cons_active ok _ i r rest m rfl] at hc ⊢
    have hcf : c ∈ keys (fanOutRecord ok r m).registry :=
      keys_processPacketsFrom_subset ok _ rest (i + 1) _ hc
    have hcm : c ∈ keys m := keys_fanOutRecord_subset ok r m hcf
    have hndf := keys_fanOutRecord_nodup ok r m hnd
    have hblock : (fanOutRecord ok r m).attempts.map (fun a => (i, a.1, a.2))
        = (keys m).map (fun a => (i, a, r)) := by
      rw [fanOutRecord_attempts]
      simp [List.map_map, Function.comp]
    rw [writesTo_append, hblock,
      writesTo_block_mem i r c (keys m) hnd hcm, ih (i + 1) _ c hndf hc]
    simp [List.enumFrom]

/-- C9: for every connection that stays in the Registry through an
uninterrupted distributor run (no shutdown fires), the Distributor
writes packet records to it in exactly the order they were decoded from
the capture stream, with exactly one write attempt per record: its write
trace is the enumerated record sequence itself. -/
theorem C9_per_connection_order (ok : Conn → PacketRecord → Bool)
    (ps : List PacketRecord) (m : Registry) (c : Conn)
    (hnd : (keys m).Nodup)
    (hc : c ∈ keys (processPackets ok (fun _ => false) ps m).registry) :
    writesTo c (processPackets ok (fun _ => false) ps m).writes =
      (List.enumFrom 0 ps).map (fun x => (x.1, c, x.2)) :=
  processPacketsFrom_writesTo_surviving ok ps 0 m c hnd hc

/-- Witness for C9 at a concrete two-connection registry and two
records. -/
theorem C9_per_connection_order_witness :
    (keys [(3, PcapClient.zero), (5, PcapClient.zero)]).Nodup ∧
    5 ∈ keys (processPackets (fun _ _ => true) (fun _ => false)
        [⟨⟨0, 0, 60, 60⟩, [1]⟩, ⟨⟨0, 1, 40, 40⟩, [2]⟩]
        [(3, PcapClient.zero), (5, PcapClient.zero)]).registry ∧
    writesTo 5 (processPackets (fun _ _ => true) (fun _ => false)
        [⟨⟨0, 0, 60, 60⟩, [1]⟩, ⟨⟨0, 1, 40, 40⟩, [2]⟩]
        [(3, PcapClient.zero), (5, PcapClient.zero)]).writes =
      (List.enumFrom 0
        [(⟨⟨0, 0, 60, 60⟩, [1]⟩ : PacketRecord), ⟨⟨0, 1, 40, 40⟩, [2]⟩]).map
          (fun x => (x.1, 5, x.2)) :=
  ⟨by decide, by decide,
    C9_per_connection_order (fun _ _ => true)
      [⟨⟨0, 0, 60, 60⟩, [1]⟩, ⟨⟨0, 1, 40, 40⟩, [2]⟩]
      [(3, PcapClient.zero), (5, PcapClient.zero)] 5
      (by decide) (by decide)⟩

/-- Shutdown discipline of one distributor run: every write attempt was
preceded by a context check at its record index, happened while the
context was still live, and no write happened at or past any index `n`
where cancellation had fired. -/
def ShutdownRespected (ok : Conn → PacketRecord → Bool)
    (cancelled : Nat → Bool) (ps : List PacketRecord) (m : Registry)
    (n : Nat) : Prop :=
  (∀ w ∈ (processPackets ok cancelled ps m).writes,
      w.1 ∈ (processPackets ok cancelled ps m).checks) ∧
  (∀ w ∈ (processPackets ok cancelled ps m).writes, cancelled w.1 = false) ∧
  (∀ w ∈ (processPackets ok cancelled ps m).writes, w.1 < n)

/-- C7: the Distributor inspects the shutdown signal at least once per
packet record (each written record has a check at its index, before its
fan-out), and once shutdown is signaled (context cancellation is
monotone, and has fired by index `n`) it stops consuming the packet
sequence without attempting any further write to any connection. -/
theorem C7_shutdown_check_per_record (ok : Conn → PacketRecord → Bool)
    (cancelled : Nat → Bool) (ps : List PacketRecord) (m : Registry)
    (n : Nat)
    (hmono : ∀ j k : Nat, j ≤ k → cancelled j = true → cancelled k = true)
    (hn : cancelled n = true) :
    ShutdownRespected ok cancelled ps m n := by
  refine ⟨?_, ?_, ?_⟩
  · intro w hw
    exact processPacketsFrom_writes_checked ok cancelled ps 0 m w hw
  · intro w hw
    exact processPacketsFrom_writes_not_cancelled ok cancelled ps 0 m w hw
  · intro w hw
    by_contra hlt
    push_neg at hlt
    have hcw := hmono n w.1 hlt hn
    rw [processPacketsFrom_writes_not_cancelled ok cancelled ps 0 m w hw]
      at hcw
    cases hcw

/-- Witness for C7: cancellation fires from record index 1 on; record 0
is distributed, record 1 is not. -/
theorem C7_shutdown_check_per_record_witness :
    (fun i => decide (1 ≤ i)) 1 = true ∧
    ShutdownRespected (fun _ _ => true) (fun i => decide (1 ≤ i))
      [⟨⟨0, 0, 60, 60⟩, [1]⟩, ⟨⟨0, 1, 40, 40⟩, [2]⟩]
      [(7, PcapClient.zero)] 1 :=
  ⟨by decide,
    C7_shutdown_check_per_record (fun _ _ => true) (fun i => decide (1 ≤ i))
      [⟨⟨0, 0, 60, 60⟩, [1]⟩, ⟨⟨0, 1, 40, 40⟩, [2]⟩]
      [(7, PcapClient.zero)] 1
      (by
        intro j k hjk hj
        simp only [decide_eq_true_eq] at hj ⊢
        omega)
      (by decide)⟩

/-- C1: the claim fails on the code.  After two records of captured
lengths 100 and 50 are both delivered successfully to connection 7, the
counters stored for it in the Registry are still `(0, 0)` instead of the
claimed `(2, 150)`: the increments in `processPackets` are applied to
`stats`, a copy of the map value, and never stored back into `connMap`. -/
theorem C1_counters_stay_zero :
    (processPackets (fun _ _ => true) (fun _ => false)
        [⟨⟨0, 0, 100, 100⟩, [1]⟩, ⟨⟨0, 1, 50, 50⟩, [2]⟩]
        [(7, PcapClient.zero)]).registry = [(7, ⟨0, 0⟩)] ∧
    (processPackets (fun _ _ => true) (fun _ => false)
        [⟨⟨0, 0, 100, 100⟩, [1]⟩, ⟨⟨0, 1, 50, 50⟩, [2]⟩]
        [(7, PcapClient.zero)]).registry ≠ [(7, ⟨2, 150⟩)] :=
  ⟨rfl, by decide⟩

/-- Membership in the keys of a registry filtered by a predicate on the
key alone. -/
theorem keys_filter_key_pred (q : Conn → Bool) (m : Registry) (a : Conn) :
    a ∈ keys (m.filter (fun e => q e.1)) ↔ a ∈ keys m ∧ q a = true := by
  simp only [keys, List.mem_map, List.mem_filter]
  constructor
  · rintro ⟨e, ⟨hem, hq⟩, rfl⟩
    exact ⟨⟨e, hem, rfl⟩, hq⟩
  · rintro ⟨⟨e, hem, rfl⟩, hq⟩
    exact ⟨e, ⟨hem, hq⟩, rfl⟩

/-- Every write attempt of a distributor run is addressed to a
connection registered at the start of the run. -/
theorem processPacketsFrom_writes_conn_registered
    (ok : Conn → PacketRecord → Bool) (cancelled : Nat → Bool)
    (ps : List PacketRecord) :
    ∀ (i : Nat) (m : Registry) (w : Nat × Conn × PacketRecord),
      w ∈ (processPacketsFrom ok cancelled i ps m).writes →
      w.2.1 ∈ keys m := by
  induction ps with
  | nil => intro i m w hw; simp [processPacketsFrom] at hw
  | cons r rest ih =>
    intro i m w hw
    cases h : cancelled i
    · rw [processPacketsFrom_cons_active ok cancelled i r rest m h] at hw
      rcases List.mem_append.mp hw with hw | hw
      · rcases List.mem_map.mp hw with ⟨a, ha, heq⟩
        rw [fanOutRecord_attempts] at ha
        rcases List.mem_map.mp ha with ⟨b, hb, rfl⟩
        rw [← heq]
        exact hb
      · exact keys_fanOutRecord_subset ok r m (ih (i + 1) _ w hw)
    · rw [processPacketsFrom_cons_cancelled ok cancelled i r rest m h] at hw
      simp at hw

/-- C4: failure isolation.  With connections A, B, C registered, if the
write of record `r` to B fails while the writes to A and C succeed, then
A and C still receive `r` unchanged, B is removed from the Registry and
closed, and no later record of the run is ever written to B. -/
theorem C4_failure_isolation (ok : Conn → PacketRecord → Bool)
    (r : PacketRecord) (rs : List PacketRecord) (m : Registry)
    (cancelled : Nat → Bool) (A B C : Conn)
    (hA : A ∈ keys m) (hB : B ∈ keys m) (hC : C ∈ keys m)
    (hokA : ok A r = true) (hokB : ok B r = false) (hokC : ok C r = true) :
    (A, r) ∈ (fanOutRecord ok r m).delivered ∧
    (C, r) ∈ (fanOutRecord ok r m).delivered ∧
    B ∉ keys (fanOutRecord ok r m).registry ∧
    B ∈ (fanOutRecord ok r m).closed ∧
    A ∈ keys (fanOutRecord ok r m).registry ∧
    C ∈ keys (fanOutRecord ok r m).registry ∧
    B ∉ ((processPacketsFrom ok cancelled 1 rs
        (fanOutRecord ok r m).registry).writes.map (fun w => w.2.1)) := by
  have hregA : A ∈ keys (fanOutRecord ok r m).registry := by
    rw [fanOutRecord_registry]
    exact (keys_filter_key_pred (fun c => ok c r) m A).mpr ⟨hA, hokA⟩
  have hregC : C ∈ keys (fanOutRecord ok r m).registry := by
    rw [fanOutRecord_registry]
    exact (keys_filter_key_pred (fun c => ok c r) m C).mpr ⟨hC, hokC⟩
  have hregB : B ∉ keys (fanOutRecord ok r m).registry := by
    rw [fanOutRecord_registry]
    intro hmem
    have := ((keys_filter_key_pred (fun c => ok c r) m B).mp hmem).2
    rw [hokB] at this
    cases this
  refine ⟨?_, ?_, hregB, ?_, hregA, hregC, ?_⟩
  · rw [fanOutRecord_delivered]
    exact List.mem_map.mpr ⟨A, by rw [← fanOutRecord_registry]; exact hregA, rfl⟩
  · rw [fanOutRecord_delivered]
    exact List.mem_map.mpr ⟨C, by rw [← fanOutRecord_registry]; exact hregC, rfl⟩
  · rw [fanOutRecord_closed]
    exact (keys_filter_key_pred (fun c => !ok c r) m B).mpr ⟨hB, by rw [hokB]; rfl⟩
  · intro hmem
    rcases List.mem_map.mp hmem with ⟨w, hw, hwB⟩
    exact hregB (hwB ▸
      processPacketsFrom_writes_conn_registered ok cancelled rs 1 _ w hw)

/-- Witness for C4 at the registry {1, 2, 3}, where the write to 2 fails
and one further record follows. -/
theorem C4_failure_isolation_witness :
    1 ∈ keys [(1, PcapClient.zero), (2, PcapClient.zero), (3, PcapClient.zero)] ∧
    (fun c (_ : PacketRecord) => c != 2) 1 (⟨⟨0, 0, 60, 60⟩, [9]⟩ : PacketRecord) = true ∧
    (fun c (_ : PacketRecord) => c != 2) 2 (⟨⟨0, 0, 60, 60⟩, [9]⟩ : PacketRecord) = false ∧
    ((1, (⟨⟨0, 0, 60, 60⟩, [9]⟩ : PacketRecord)) ∈
      (fanOutRecord (fun c _ => c != 2) ⟨⟨0, 0, 60, 60⟩, [9]⟩
        [(1, PcapClient.zero), (2, PcapClient.zero), (3, PcapClient.zero)]).delivered ∧
     (3, (⟨⟨0, 0, 60, 60⟩, [9]⟩ : PacketRecord)) ∈
      (fanOutRecord (fun c _ => c != 2) ⟨⟨0, 0, 60, 60⟩, [9]⟩
        [(1, PcapClient.zero), (2, PcapClient.zero), (3, PcapClient.zero)]).delivered ∧
     2 ∉ keys (fanOutRecord (fun c _ => c != 2) ⟨⟨0, 0, 60, 60⟩, [9]⟩
        [(1, PcapClient.zero), (2, PcapClient.zero), (3, PcapClient.zero)]).registry ∧
     2 ∈ (fanOutRecord (fun c _ => c != 2) ⟨⟨0, 0, 60, 60⟩, [9]⟩
        [(1, PcapClient.zero), (2, PcapClient.zero), (3, PcapClient.zero)]).closed ∧
     1 ∈ keys (fanOutRecord (fun c _ => c != 2) ⟨⟨0, 0, 60, 60⟩, [9]⟩
        [(1, PcapClient.zero), (2, PcapClient.zero), (3, PcapClient.zero)]).registry ∧
     3 ∈ keys (fanOutRecord (fun c _ => c != 2) ⟨⟨0, 0, 60, 60⟩, [9]⟩
        [(1, PcapClient.zero), (2, PcapClient.zero), (3, PcapClient.zero)]).registry ∧
     2 ∉ ((processPacketsFrom (fun c _ => c != 2) (fun _ => false) 1
        [⟨⟨0, 1, 40, 40⟩, [8]⟩]
        (fanOutRecord (fun c _ => c != 2) ⟨⟨0, 0, 60, 60⟩, [9]⟩
          [(1, PcapClient.zero), (2, PcapClient.zero), (3, PcapClient.zero)]).registry).writes.map
            (fun w => w.2.1))) :=
  ⟨by decide, by decide, by decide,
    C4_failure_isolation (fun c _ => c != 2) ⟨⟨0, 0, 60, 60⟩, [9]⟩
      [⟨⟨0, 1, 40, 40⟩, [8]⟩]
      [(1, PcapClient.zero), (2, PcapClient.zero), (3, PcapClient.zero)]
      (fun _ => false) 1 2 3
      (by decide) (by decide) (by decide) (by decide) (by decide) (by decide)⟩

/-- One write performed by the broker on a client connection: either the
global pcap file header (`writer.WriteFileHeader(65535,
handle.LinkType())`) or one packet record (`writer.WritePacket(ci,
packet.Data())`). -/
inductive WriteOp where
  | fileHeader (c : Conn) (snaplen : Nat) (linkType : Nat)
  | pkt (c : Conn) (r : PacketRecord)
deriving DecidableEq, Repr

/-- Connection an operation is addressed to. -/
def WriteOp.conn : WriteOp → Conn
  | .fileHeader c _ _ => c
  | .pkt c _ => c

/-- Whether an operation is a packet-record write. -/
def isPkt : WriteOp → Bool
  | .pkt _ _ => true
  | .fileHeader _ _ _ => false

/-- Effect of handling one accepted connection. -/
structure AcceptOut where
  registry : Registry
  writes : List WriteOp
  closed : List Conn
deriving DecidableEq, Repr

/-- Embedding of the per-connection acceptance code (`main.go` lines
174-189):

```go
writer := pcapgo.NewWriter(conn)
err = writer.WriteFileHeader(65535, handle.LinkType())
if err != nil {
    log.Err(err).Msg("failed to write pcap header")
    err := conn.Close()
    ...
    continue
}
connMap[conn] = PcapClient{writer: writer}
```

`headerOk` is the outcome of the header write and `lt` the link type of
the capture handle.  On failure the connection is closed and the
registry is left untouched; on success the connection is registered with
the zero-valued `PcapClient` (both counters 0). -/
def handleConn (headerOk : Bool) (lt : Nat) (c : Conn) (m : Registry) :
    AcceptOut :=
  if headerOk then
    ⟨m ++ [(c, PcapClient.zero)], [WriteOp.fileHeader c 65535 lt], []⟩
  else
    ⟨m, [WriteOp.fileHeader c 65535 lt], [c]⟩

/-- Outcome of `l.Accept()`: a connection, or an error. -/
inductive AcceptResult where
  | conn (c : Conn)
  | failed
deriving DecidableEq, Repr

/-- What the accept loop decides to do after one `Accept` return. -/
inductive LoopDecision where
  | fatalExit
  | exitLoop
  | handle (c : Conn)
deriving DecidableEq, Repr

/-- Embedding of the head of the accept loop (`main.go` lines 155-161):

```go
conn, err := l.Accept()
if err != nil && ctx.Err() == nil {
    log.Fatal().Err(err).Msg("failed to accept connection")
} else if errors.Is(ctx.Err(), context.Canceled) {
    break
}
```

`canceled` is whether the interrupt context has been cancelled (its
`ctx.Err()` is then `context.Canceled`, otherwise `nil`).  An accept
error outside shutdown is fatal; under a cancelled context the loop
breaks, even when `Accept` just returned a live connection. -/
def acceptIter : AcceptResult → Bool → LoopDecision
  | .failed, false => .fatalExit
  | _, true => .exitLoop
  | .conn c, false => .handle c

/-- One full iteration of the accept loop: the decision made at its
head, and the work done on the connection.  Only a `handle` decision
reaches the reverse-lookup logging and `handleConn` body; `exitLoop` and
`fatalExit` leave the registry untouched, write nothing and close
nothing. -/
def acceptLoopIter (res : AcceptResult) (canceled : Bool)
    (headerOk : Bool) (lt : Nat) (m : Registry) :
    LoopDecision × AcceptOut :=
  match acceptIter res canceled with
  | .handle c => (.handle c, handleConn headerOk lt c m)
  | .exitLoop => (.exitLoop, ⟨m, [], []⟩)
  | .fatalExit => (.fatalExit, ⟨m, [], []⟩)

/-- C5: for every accepted connection, a failed stream-header write
closes the connection at once and never registers it, while a successful
header write registers it with both counters zero. -/
theorem C5_header_write_gates_registration (c : Conn) (lt : Nat)
    (m : Registry) :
    acceptLoopIter (.conn c) false false lt m =
      (.handle c, ⟨m, [WriteOp.fileHeader c 65535 lt], [c]⟩) ∧
    acceptLoopIter (.conn c) false true lt m =
      (.handle c,
       ⟨m ++ [(c, (⟨0, 0⟩ : PcapClient))],
        [WriteOp.fileHeader c 65535 lt], []⟩) :=
  ⟨rfl, rfl⟩

/-- C10: when `Accept` returns a connection after the shutdown signal
has fired, the accept loop exits before doing any work on it: no header
write, no registration, no close. -/
theorem C10_accept_after_cancel_breaks (c : Conn) (headerOk : Bool)
    (lt : Nat) (m : Registry) :
    acceptLoopIter (.conn c) true headerOk lt m =
      (.exitLoop, ⟨m, [], []⟩) :=
  rfl

/-- Top-level events the running broker can experience. -/
inductive TopEvent where
  | interrupt
  | subprocessExit
deriving DecidableEq, Repr

/-- Observable top-level state of the broker. -/
structure TopState where
  ctxCanceled : Bool
  listenerClosed : Bool
  exited : Bool
deriving DecidableEq, Repr

/-- Embedding of the reaction of `main` (`main.go` lines 125-208) to
top-level events.

An interrupt cancels the context created by
`signal.NotifyContext(context.Background(), os.Interrupt)` (line 125);
the goroutine of lines 145-153 then closes the listener, the accept
loop observes `context.Canceled` and breaks (lines 159-161), and `main`
kills the subprocess, closes the pipe ends and returns (lines 192-208).

Nothing in this `main` observes the termination of the capture
subprocess: no goroutine calls `cmd.Wait()` on it, and the broker keeps
the write end `wStdout` of the pipe open until after the accept loop
ends (line 204), so the decoder reading `rStdout` does not even reach
end-of-file when the subprocess exits.  The event therefore leaves the
broker state unchanged. -/
def topStep (s : TopState) : TopEvent → TopState
  | .interrupt => ⟨true, true, true⟩
  | .subprocessExit => s

/-- C2: the claim fails on the code.  In the running broker, the
termination of the capture subprocess triggers no shutdown at all: the
listener stays open and the broker keeps running, because no code path
of the current `main` waits on the subprocess.  (The README states the
broker will exit if the capture command exits.) -/
theorem C2_subprocess_exit_ignored :
    topStep ⟨false, false, false⟩ .subprocessExit = ⟨false, false, false⟩ ∧
    (topStep ⟨false, false, false⟩ .subprocessExit).listenerClosed = false ∧
    (topStep ⟨false, false, false⟩ .subprocessExit).exited = false :=
  ⟨rfl, rfl, rfl⟩

/-- State of the two goroutines sharing `connMap`: the map itself and,
when the `processPackets` goroutine is inside its
`for conn, stats := range connMap` loop, the record being fanned out
together with the map value the range started from. -/
structure ConcState where
  connMap : Registry
  ranging : Option (PacketRecord × Registry)
deriving DecidableEq, Repr

/-- Scheduler choices for interleaving the accept loop (main goroutine)
with the `processPackets` goroutine. -/
inductive Sched where
  | acceptorInsert (c : Conn)
  | distBeginRange (r : PacketRecord)
  | distFinishRange
deriving DecidableEq, Repr

/-- Interleaving semantics of the shared accesses to `connMap`.  The
source guards the map with nothing: the current `main.go` imports no
`sync` package, sends no connections over a channel, and lets the accept
loop write `connMap[conn] = PcapClient{writer: writer}` (line 189) while
the `processPackets` goroutine ranges over and mutates the same map
(lines 222-236).  No step here blocks or acquires anything, mirroring
that absence.  The Bool paired with each step records whether the step
was an acceptor insertion performed while the distributor goroutine was
inside a range over the map — mutation of a Go map concurrent with
iteration, which the Go runtime treats as a fatal error.  Write outcomes
are irrelevant to the race, so the fan-out is taken with all writes
succeeding. -/
def concStep (s : ConcState) : Sched → ConcState × Bool
  | .acceptorInsert c =>
    (⟨s.connMap ++ [(c, PcapClient.zero)], s.ranging⟩, s.ranging.isSome)
  | .distBeginRange r => (⟨s.connMap, some (r, s.connMap)⟩, false)
  | .distFinishRange =>
    match s.ranging with
    | none => (s, false)
    | some (r, _) =>
      (⟨(fanOutRecord (fun _ _ => true) r s.connMap).registry, none⟩, false)

/-- Run of the interleaving model under a schedule, reporting whether
any step raced. -/
def concRun : ConcState → List Sched → ConcState × Bool
  | s, [] => (s, false)
  | s, a :: rest =>
    let step := concStep s a
    let next := concRun step.1 rest
    (next.1, step.2 || next.2)

/-- C3: the claim fails on the code.  The registry is a plain Go map
shared by the accept loop and the distributor goroutine with no mutex
and no channel, so the schedule in which the distributor begins ranging
over `connMap` and the acceptor then inserts a new connection performs
an unsynchronized concurrent mutation during iteration. -/
theorem C3_unsynchronized_map_race :
    (concRun ⟨[(1, PcapClient.zero)], none⟩
      [Sched.distBeginRange ⟨⟨0, 0, 60, 60⟩, [1]⟩,
       Sched.acceptorInsert 5]).2 = true :=
  rfl

/-- Global pcap header fields read from the start of the capture byte
stream. -/
structure GlobalHeader where
  magic : Nat
  versionMajor : Nat
  versionMinor : Nat
  snaplen : Nat
  linkType : Nat
deriving DecidableEq, Repr

/-- Modelled from the spec: the validation `pcap.OpenOfflineFile` (the
pcap library, not part of this repository) applies to the capture global
header — it "fails fatally if the magic/version fields are not
recognized, since no valid packet boundary can be established".  The
recognized magic numbers are the standard pcap ones (microsecond and
nanosecond resolution, in both byte orders). -/
def recognizedMagic (m : Nat) : Bool :=
  m == 0xa1b2c3d4 || m == 0xd4c3b2a1 || m == 0xa1b23c4d || m == 0x4d3cb2a1

/-- Modelled from the spec: parsing of the global header, failing when
the magic number or version is not recognized. -/
def parseGlobalHeader (h : GlobalHeader) : Except String GlobalHeader :=
  if recognizedMagic h.magic then
    if h.versionMajor == 2 && h.versionMinor == 4 then
      Except.ok h
    else
      Except.error "unsupported pcap version"
  else
    Except.error "bad magic number"

/-- Outcome of the broker startup sequence. -/
inductive StartupOutcome where
  | fatalBeforeListener (exitCode : Nat)
  | listening (h : GlobalHeader)
deriving DecidableEq, Repr

/-- Whether a startup outcome can ever accept a subscriber connection. -/
def canAccept : StartupOutcome → Bool
  | .fatalBeforeListener _ => false
  | .listening _ => true

/-- Embedding of the startup order of `main` (`main.go` lines 102-143):
the pipe, subprocess and interrupt context are set up, then
`pcap.OpenOfflineFile(rStdout)` parses the capture global header (line
128).  On error, `log.Fatal` (lines 129-131) exits the process with
status 1 BEFORE `net.Listen` creates the listener (line 140), so no
subscriber connection is ever accepted. -/
def brokerStartup (h : GlobalHeader) : StartupOutcome :=
  match parseGlobalHeader h with
  | .error _ => .fatalBeforeListener 1
  | .ok hdr => .listening hdr

/-- C8: a capture stream whose global header carries an unrecognized
magic number or version makes the broker terminate fatally with non-zero
status before the listener is created, so no subscriber connection is
ever accepted. -/
theorem C8_bad_magic_fatal_before_listen (h : GlobalHeader)
    (hbad : recognizedMagic h.magic = false ∨
      (h.versionMajor == 2 && h.versionMinor == 4) = false) :
    brokerStartup h = .fatalBeforeListener 1 ∧
    canAccept (brokerStartup h) = false ∧ 1 ≠ 0 := by
  have : brokerStartup h = .fatalBeforeListener 1 := by
    rcases hbad with hb | hb
    · simp [brokerStartup, parseGlobalHeader, hb]
    · cases hm : recognizedMagic h.magic
      · simp [brokerStartup, parseGlobalHeader, hm]
      · simp [brokerStartup, parseGlobalHeader, hm, hb]
  refine ⟨this, ?_, by decide⟩
  rw [this]
  rfl

/-- Witness for C8 at the concrete magic number `0xdeadbeef`. -/
theorem C8_bad_magic_fatal_before_listen_witness :
    (recognizedMagic 0xdeadbeef = false ∨
      ((2 : Nat) == 2 && (4 : Nat) == 4) = false) ∧
    (brokerStartup ⟨0xdeadbeef, 2, 4, 65535, 1⟩ = .fatalBeforeListener 1 ∧
     canAccept (brokerStartup ⟨0xdeadbeef, 2, 4, 65535, 1⟩) = false ∧
     1 ≠ 0) :=
  ⟨Or.inl (by decide),
    C8_bad_magic_fatal_before_listen ⟨0xdeadbeef, 2, 4, 65535, 1⟩
      (Or.inl (by decide))⟩

/-- Events of the running broker, as seen by the shared registry: an
accepted connection (with the outcome of its stream-header write), or a
packet record decoded from the capture stream. -/
inductive BrokerEv where
  | accept (c : Conn) (headerOk : Bool)
  | packet (r : PacketRecord)
deriving DecidableEq, Repr

/-- Connections accepted in an event sequence, in order. -/
def acceptedConns : List BrokerEv → List Conn
  | [] => []
  | .accept c _ :: evs => c :: acceptedConns evs
  | .packet _ :: evs => acceptedConns evs

/-- Run of the broker over an event sequence, collecting every write it
performs on any client connection, in order: accept events run the
acceptance code of `main.go` lines 174-189 and packet events run one
fan-out pass of `processPackets` (lines 222-236), both against the
shared registry. -/
def runBroker (ok : Conn → PacketRecord → Bool) (lt : Nat) :
    List BrokerEv → Registry → Registry × List WriteOp
  | [], m => (m, [])
  | .accept c hOk :: evs, m =>
    let a := handleConn hOk lt c m
    let rest := runBroker ok lt evs a.registry
    (rest.1, a.writes ++ rest.2)
  | .packet r :: evs, m =>
    let f := fanOutRecord ok r m
    let rest := runBroker ok lt evs f.registry
    (rest.1, f.attempts.map (fun p => WriteOp.pkt p.1 p.2) ++ rest.2)

/-- The sub-trace of write operations addressed to connection `c`. -/
def opsTo (c : Conn) (tr : List WriteOp) : List WriteOp :=
  tr.filter (fun op => op.conn == c)

theorem opsTo_append (c : Conn) (a b : List WriteOp) :
    opsTo c (a ++ b) = opsTo c a ++ opsTo c b := by
  simp [opsTo]

/-- The first write a connection receives, if any, is the single global
pcap file header built from snaplen 65535 and the capture link type, and
every later write to it is a packet record. -/
def headerFirst (c : Conn) (lt : Nat) (tr : List WriteOp) : Prop :=
  (opsTo c tr = [] ∨
    (opsTo c tr).head? = some (WriteOp.fileHeader c 65535 lt)) ∧
  (opsTo c tr).tail.all isPkt = true

/-- The header write emitted while accepting a connection carries
snaplen 65535 and the capture link type, whether or not it succeeds. -/
theorem handleConn_writes (headerOk : Bool) (lt : Nat) (c : Conn)
    (m : Registry) :
    (handleConn headerOk lt c m).writes = [WriteOp.fileHeader c 65535 lt] := by
  cases headerOk <;> rfl

/-- Acceptance only ever grows the registry by the accepted connection. -/
theorem keys_handleConn (headerOk : Bool) (lt : Nat) (a c : Conn)
    (m : Registry) (hac : c ≠ a) (hcm : c ∉ keys m) :
    c ∉ keys (handleConn headerOk lt a m).registry := by
  cases headerOk
  · exact hcm
  · intro hmem
    rw [handleConn] at hmem
    simp only [if_pos, keys, List.map_append, List.mem_append] at hmem
    rcases hmem with h | h
    · exact hcm h
    · simp at h
      exact hac h

/-- No write in a packet fan-out block is addressed to an unregistered
connection. -/
theorem opsTo_pkt_block_nil (c : Conn) (r : PacketRecord) (l : List Conn)
    (hc : c ∉ l) :
    opsTo c (l.map (fun a => WriteOp.pkt a r)) = [] := by
  rw [opsTo, List.filter_eq_nil_iff]
  intro op hop
  rcases List.mem_map.mp hop with ⟨a, ha, rfl⟩
  simp only [WriteOp.conn, beq_iff_eq]
  intro h
  exact hc (h ▸ ha)

/-- A header write to another connection is invisible to `c`. -/
theorem opsTo_other_header_nil (c a : Conn) (sl lt : Nat) (hac : c ≠ a) :
    opsTo c [WriteOp.fileHeader a sl lt] = [] := by
  simp only [opsTo, List.filter_cons, List.filter_nil, WriteOp.conn]
  rw [if_neg]
  simp only [beq_iff_eq]
  intro h
  exact hac h.symm

/-- The packet block of one fan-out pass, as write operations. -/
theorem fanOut_block_as_pkt (ok : Conn → PacketRecord → Bool)
    (r : PacketRecord) (m : Registry) :
    (fanOutRecord ok r m).attempts.map (fun p => WriteOp.pkt p.1 p.2) =
      (keys m).map (fun a => WriteOp.pkt a r) := by
  rw [fanOutRecord_attempts]
  simp [List.map_map, Function.comp]

/-- A connection never accepted in the remaining events only ever
receives packet records from there on. -/
theorem runBroker_opsTo_all_pkt (ok : Conn → PacketRecord → Bool)
    (lt : Nat) :
    ∀ (evs : List BrokerEv) (m : Registry) (c : Conn),
      c ∉ acceptedConns evs →
      (opsTo c (runBroker ok lt evs m).2).all isPkt = true := by
  intro evs
  induction evs with
  | nil => intro m c _; rfl
  | cons e evs ih =>
    intro m c hc
    cases e with
    | accept a hOk =>
      have hca : c ≠ a := by
        intro h
        exact hc (h ▸ List.mem_cons_self a (acceptedConns evs))
      have hce : c ∉ acceptedConns evs := by
        intro h
        exact hc (List.mem_cons_of_mem a h)
      show (opsTo c ((handleConn hOk lt a m).writes ++ _)).all isPkt = true
      rw [handleConn_writes, opsTo_append, opsTo_other_header_nil c a _ _ hca,
        List.nil_append]
      exact ih _ c hce
    | packet r =>
      have hce : c ∉ acceptedConns evs := hc
      show (opsTo c ((fanOutRecord ok r m).attempts.map _ ++ _)).all isPkt = true
      rw [fanOut_block_as_pkt, opsTo_append, List.all_append]
      refine Bool.and_eq_true_iff.mpr ⟨?_, ih _ c hce⟩
      rw [List.all_eq_true]
      intro op hop
      rcases List.mem_filter.mp hop with ⟨hmem, _⟩
      rcases List.mem_map.mp hmem with ⟨a, _, rfl⟩
      rfl

/-- Core invariant for C6: in a run whose remaining accepts are distinct
and where `c` is not yet registered, the writes to `c` are a header
first, then packet records. -/
theorem runBroker_headerFirst (ok : Conn → PacketRecord → Bool) (lt : Nat) :
    ∀ (evs : List BrokerEv) (m : Registry) (c : Conn),
      (acceptedConns evs).Nodup → c ∉ keys m →
      headerFirst c lt (runBroker ok lt evs m).2 := by
  intro evs
  induction evs with
  | nil => intro m c _ _; exact ⟨Or.inl rfl, rfl⟩
  | cons e evs ih =>
    intro m c hnd hcm
    cases e with
    | accept a hOk =>
      have hnda : a ∉ acceptedConns evs :=
        (List.nodup_cons.mp hnd).1
      have hnd' : (acceptedConns evs).Nodup :=
        (List.nodup_cons.mp hnd).2
      by_cases hca : c = a
      · subst hca
        show headerFirst c lt ((handleConn hOk lt c m).writes ++ _)
        rw [headerFirst, handleConn_writes, opsTo_append]
        have hhead : opsTo c [WriteOp.fileHeader c 65535 lt] =
            [WriteOp.fileHeader c 65535 lt] := by
          simp [opsTo, WriteOp.conn]
        rw [hhead]
        exact ⟨Or.inr rfl, runBroker_opsTo_all_pkt ok lt evs _ c hnda⟩
      · show headerFirst c lt ((handleConn hOk lt a m).writes ++ _)
        rw [headerFirst, handleConn_writes, opsTo_append,
          opsTo_other_header_nil c a _ _ hca, List.nil_append]
        exact ih _ c hnd' (keys_handleConn hOk lt a c m hca hcm)
    | packet r =>
      show headerFirst c lt ((fanOutRecord ok r m).attempts.map _ ++ _)
      rw [headerFirst, fanOut_block_as_pkt, opsTo_append,
        opsTo_pkt_block_nil c r (keys m) hcm, List.nil_append]
      exact ih _ c hnd
        (fun h => hcm (keys_fanOutRecord_subset ok r m h))

/-- C6: starting from the empty registry, every accepted connection has
as its first write exactly the global pcap file header built from the
capture link type and the fixed snapshot length 65535, and every other
write to it is a packet record, so the header precedes every packet. -/
theorem C6_header_before_packets (ok : Conn → PacketRecord → Bool)
    (lt : Nat) (evs : List BrokerEv) (c : Conn)
    (hnd : (acceptedConns evs).Nodup) :
    headerFirst c lt (runBroker ok lt evs []).2 :=
  runBroker_headerFirst ok lt evs [] c hnd (by simp [keys])

/-- Witness for C6 on a concrete event sequence: two accepts
interleaved with two records. -/
theorem C6_header_before_packets_witness :
    (acceptedConns [BrokerEv.accept 4 true,
      BrokerEv.packet ⟨⟨0, 0, 60, 60⟩, [1]⟩,
      BrokerEv.accept 6 true,
      BrokerEv.packet ⟨⟨0, 1, 40, 40⟩, [2]⟩]).Nodup ∧
    headerFirst 6 12 (runBroker (fun _ _ => true) 12
      [BrokerEv.accept 4 true,
       BrokerEv.packet ⟨⟨0, 0, 60, 60⟩, [1]⟩,
       BrokerEv.accept 6 true,
       BrokerEv.packet ⟨⟨0, 1, 40, 40⟩, [2]⟩] []).2 :=
  ⟨by decide,
    C6_header_before_packets (fun _ _ => true) 12
      [BrokerEv.accept 4 true,
       BrokerEv.packet ⟨⟨0, 0, 60, 60⟩, [1]⟩,
       BrokerEv.accept 6 true,
       BrokerEv.packet ⟨⟨0, 1, 40, 40⟩, [2]⟩] 6 (by decide)⟩

end PcapBroker
